import Mathlib

/-!
Shallow embedding of the stream generation and time-sliced convergence
detection engine of the Nexus Convergence Map component.

The source is a TypeScript module.  Pure numeric code is embedded over `ℝ`
(the idealisation of JS doubles used throughout this development); the
integer-only xorshift PRNG is embedded with exact integer arithmetic and the
final normalisation to a rational number.  The detection pipeline
(pairwise candidate scan, voxel deduplication, stable sort, cap) is
polymorphic in the scalar field so that its combinatorial behaviour can be
evaluated on rational inputs.

JS semantics embedded here:
  - `x | 0`, `^`, `<<`, `>>>` work on 32-bit patterns (`toUint32`/`toInt32`).
  - `Math.round x` is `⌊x + 1/2⌋` (halves round toward `+∞`) — `jsRound`.
  - `x % 1` for `x ≥ 0` is the fractional part — `Int.fract`.
  - `Array.prototype.sort` with comparator `(a, b) => b.strength - a.strength`
    is a stable sort, descending by strength (ECMAScript requires sort
    stability) — `sortDesc`.
-/

namespace Nexus

open Real

/-- 32-bit unsigned pattern of an integer (JS `x >>> 0` view). -/
def toUint32 (n : ℤ) : ℕ := (n % 4294967296).toNat

/-- JS `x | 0`: interpret the low 32 bits of an integer as a signed 32-bit value. -/
def toInt32 (n : ℤ) : ℤ :=
  let m := n % 4294967296
  if m < 2147483648 then m else m - 4294967296

/-- JS 32-bit `a ^ b` on integers. -/
def int32Xor (a b : ℤ) : ℤ := toInt32 (toUint32 a ^^^ toUint32 b : ℕ)

/-- Source `rand(seed)`: the xorshift32
`s ^= s<<13; s ^= s>>>17; s ^= s<<5` followed by `((s >>> 0) / 0xffffffff) % 1`,
with exact integer arithmetic on the 32-bit pattern. -/
def rand (seed : ℤ) : ℚ :=
  let s0 : ℕ := toUint32 seed
  let s1 : ℕ := (s0 ^^^ (s0 <<< 13)) % 4294967296
  let s2 : ℕ := s1 ^^^ (s1 >>> 17)
  let s3 : ℕ := (s2 ^^^ (s2 <<< 5)) % 4294967296
  Int.fract ((s3 : ℚ) / 4294967295)

/-- Source `StreamParams` record.  The scalar type is a parameter so the same
record can carry exact rationals or reals; the source stores JS numbers. -/
structure StreamParams (α : Type) where
  fx : α
  fy : α
  fz : α
  ampY : α
  ampZ : α
  twist : α
  swirl : α
  phaseY : α
  phaseZ : α
  colorSeed : ℤ

/-- Source `makeStreamParams(id, seedBase)`: four sub-seeds from the identifier
length and fixed multipliers, then parameters by linear remapping of `rand`. -/
noncomputable def makeStreamParams (id : String) (seedBase : ℝ) : StreamParams ℝ :=
  let s1 : ℤ := toInt32 ⌊(seedBase + (id.length : ℝ) * 13) * 1000003⌋
  let s2 : ℤ := toInt32 ⌊(seedBase + (id.length : ℝ) * 37) * 9999989⌋
  let s3 : ℤ := toInt32 ⌊(seedBase + (id.length : ℝ) * 91) * 7000001⌋
  let s4 : ℤ := toInt32 ⌊(seedBase + (id.length : ℝ) * 59) * 5000161⌋
  { fx := 1.0 + (rand s1 : ℝ) * 3.5
    fy := 1.0 + (rand s2 : ℝ) * 3.0
    fz := 1.0 + (rand s3 : ℝ) * 2.5
    ampY := 0.25 + (rand (int32Xor s2 s3) : ℝ) * 0.45
    ampZ := 0.25 + (rand (int32Xor s1 s4) : ℝ) * 0.45
    twist := ((rand (int32Xor s1 s2) : ℝ) - 0.5) * 0.8
    swirl := ((rand (int32Xor s2 s4) : ℝ) - 0.5) * 0.6
    phaseY := (rand (int32Xor s3 s4) : ℝ) * π * 2
    phaseZ := (rand (int32Xor s4 s1) : ℝ) * π * 2
    colorSeed := ⌊rand (int32Xor (int32Xor (int32Xor s1 s2) s3) s4) * 360⌋ }

/-- Source `interface Bounds`. -/
structure Bounds (α : Type) where
  w : α
  h : α

/-- Source `interface StreamPoint`. -/
structure StreamPoint (α : Type) where
  x : α
  y : α
  z : α
  u : α
  intensity : α

/-- Position part of `pointOnStream`, exactly the three coordinate formulas of
the source; visibly computed from `(u, tau, params, bounds)` only, with no
reference to the intensity value. -/
noncomputable def streamPos (u tau : ℝ) (params : StreamParams ℝ) (bounds : Bounds ℝ) :
    ℝ × ℝ × ℝ :=
  let uCentered := u - 0.5
  (bounds.w * uCentered + Real.sin ((u * params.fx + tau * 0.15) * π * 2) * params.twist * 25,
   bounds.h * params.ampY * Real.sin ((u * params.fy + tau * 0.22) * π * 2 + params.phaseY) +
     Real.cos ((u * 1.2 + tau * 0.07) * π * 2) * 10,
   bounds.h * params.ampZ * Real.cos ((u * params.fz + tau * 0.18) * π * 2 + params.phaseZ) +
     Real.sin ((u * 0.9 + tau * 0.11) * π * 2) * params.swirl * 30)

/-- Source `pointOnStream(u, tau, params, bounds)`. -/
noncomputable def pointOnStream (u tau : ℝ) (params : StreamParams ℝ) (bounds : Bounds ℝ) :
    StreamPoint ℝ :=
  let uCentered := u - 0.5
  let x := bounds.w * uCentered +
    Real.sin ((u * params.fx + tau * 0.15) * π * 2) * params.twist * 25
  let y := bounds.h * params.ampY *
      Real.sin ((u * params.fy + tau * 0.22) * π * 2 + params.phaseY) +
    Real.cos ((u * 1.2 + tau * 0.07) * π * 2) * 10
  let z := bounds.h * params.ampZ *
      Real.cos ((u * params.fz + tau * 0.18) * π * 2 + params.phaseZ) +
    Real.sin ((u * 0.9 + tau * 0.11) * π * 2) * params.swirl * 30
  let intensity := 0.5 +
    0.5 * Real.sin ((u * (params.fy + params.fz) + tau * 0.2) * π * 2 +
      params.phaseY * 0.5 + params.phaseZ * 0.5)
  { x := x, y := y, z := z, u := u, intensity := intensity }

/-- Source `buildStreamPointsAtTime(params, bounds, steps, tau)`: the loop
`for i in 0..steps` sampling at `u = i / steps`. -/
noncomputable def buildStreamPointsAtTime (params : StreamParams ℝ) (bounds : Bounds ℝ)
    (steps : ℕ) (tau : ℝ) : List (StreamPoint ℝ) :=
  (List.range (steps + 1)).map fun i : ℕ =>
    pointOnStream ((i : ℝ) / (steps : ℝ)) tau params bounds

/-- Source `interface StreamPointWithId`. -/
structure StreamPointWithId (α : Type) where
  x : α
  y : α
  z : α
  u : α
  intensity : α
  streamId : String

/-- Source `interface Convergence` (a `ConvergenceEvent` of the specification). -/
structure Convergence (α : Type) where
  x : α
  y : α
  z : α
  strength : α
  u : α
  streams : List String
deriving DecidableEq

/-- Source `interface StreamData`. -/
structure StreamData where
  id : String
  params : StreamParams ℝ

/-- The ordered pair scan `for i; for j = i+1` of the source's detection loop:
every ordered position pair `(l[i], l[j])` with `i < j`, `i` outer, `j` inner. -/
def pairsUpper {β : Type} : List β → List (β × β)
  | [] => []
  | x :: xs => (xs.map fun y => (x, y)) ++ pairsUpper xs

/-- Condition under which the source's pair loop emits a candidate: the pair is
not skipped by the `u`-slice filter, not skipped as same-stream, and the
squared distance is within the threshold. -/
def matchPair {α : Type} [LinearOrderedField α] (sliceDu threshold : α)
    (a b : StreamPointWithId α) : Prop :=
  |a.u - b.u| ≤ sliceDu ∧ a.streamId ≠ b.streamId ∧
    (a.x - b.x) * (a.x - b.x) + (a.y - b.y) * (a.y - b.y) + (a.z - b.z) * (a.z - b.z) ≤
      threshold * threshold

instance {α : Type} [LinearOrderedField α] (sliceDu threshold : α)
    (a b : StreamPointWithId α) : Decidable (matchPair sliceDu threshold a b) := by
  unfold matchPair; infer_instance

/-- The candidate event the source pushes for a matching pair. -/
def mkEvent {α : Type} [LinearOrderedField α] (a b : StreamPointWithId α) : Convergence α :=
  { x := (a.x + b.x) * 0.5
    y := (a.y + b.y) * 0.5
    z := (a.z + b.z) * 0.5
    strength := (a.intensity + b.intensity) * 0.5
    u := (a.u + b.u) * 0.5
    streams := [a.streamId, b.streamId] }

/-- The pre-deduplication candidate list of `detectConvergenceAtTime`, built by
the ordered pairwise scan with the three sequential skip conditions. -/
def candidates {α : Type} [LinearOrderedField α] (sliceDu threshold : α)
    (all : List (StreamPointWithId α)) : List (Convergence α) :=
  ((pairsUpper all).filter fun p => decide (matchPair sliceDu threshold p.1 p.2)).map
    fun p => mkEvent p.1 p.2

/-- JS `Math.round`: the nearest integer, halves toward `+∞`. -/
def jsRound {α : Type} [LinearOrderedField α] [FloorRing α] (x : α) : ℤ := ⌊x + 1 / 2⌋

/-- The voxel key `round(x/voxel)_round(y/voxel)_round(z/voxel)` of the
source's deduplication step (the string key is injective in the three rounded
integers, so the key is embedded as the integer triple). -/
def voxelKey {α : Type} [LinearOrderedField α] [FloorRing α] (voxel : α)
    (c : Convergence α) : ℤ × ℤ × ℤ :=
  (jsRound (c.x / voxel), jsRound (c.y / voxel), jsRound (c.z / voxel))

/-- The source's deduplication loop: `seen` is the set of keys of the events
kept so far, an incoming event is dropped when its key is already in `seen`. -/
def dedupGo {α : Type} [LinearOrderedField α] [FloorRing α] (voxel : α) :
    List (ℤ × ℤ × ℤ) → List (Convergence α) → List (Convergence α)
  | _, [] => []
  | seen, c :: rest =>
    let key := voxelKey voxel c
    if key ∈ seen then dedupGo voxel seen rest
    else c :: dedupGo voxel (key :: seen) rest

/-- Stable insertion of `c` (an earlier element) into a later suffix for the
descending-by-strength sort: `c` stays before every element whose strength
does not exceed its own. -/
def insertDesc {α : Type} [LinearOrderedField α] (c : Convergence α) :
    List (Convergence α) → List (Convergence α)
  | [] => [c]
  | d :: rest =>
    if c.strength < d.strength then d :: insertDesc c rest else c :: d :: rest

/-- Source `deduped.sort((a, b) => b.strength - a.strength)`: a stable sort,
descending by strength (ECMAScript guarantees `Array.prototype.sort` is
stable, and the comparator is consistent on real strengths). -/
def sortDesc {α : Type} [LinearOrderedField α] :
    List (Convergence α) → List (Convergence α)
  | [] => []
  | c :: rest => insertDesc c (sortDesc rest)

/-- The detection pipeline applied to the flattened tagged sample list: the
part of `detectConvergenceAtTime` after sampling (candidate scan, voxel
deduplication with cell size `threshold * 0.75`, stable sort strongest first,
cap at 200 events). -/
def detectFromAll {α : Type} [LinearOrderedField α] [FloorRing α] (sliceDu threshold : α)
    (all : List (StreamPointWithId α)) : List (Convergence α) :=
  (sortDesc (dedupGo (threshold * 0.75) [] (candidates sliceDu threshold all))).take 200

/-- The flattened sample list of `detectConvergenceAtTime`: every stream's
curve sampled at `tau`, each sample tagged with the owning stream identifier,
streams in their given order. -/
noncomputable def allPoints (streams : List StreamData) (tau : ℝ) (steps : ℕ)
    (bounds : Bounds ℝ) : List (StreamPointWithId ℝ) :=
  streams.flatMap fun s =>
    (buildStreamPointsAtTime s.params bounds steps tau).map fun p =>
      { x := p.x, y := p.y, z := p.z, u := p.u, intensity := p.intensity, streamId := s.id }

/-- The pre-deduplication candidate list of a `detectConvergenceAtTime` call. -/
noncomputable def rawCandidatesAtTime (streams : List StreamData) (tau sliceDu threshold : ℝ)
    (steps : ℕ) (bounds : Bounds ℝ) : List (Convergence ℝ) :=
  candidates sliceDu threshold (allPoints streams tau steps bounds)

/-- Source `detectConvergenceAtTime(streams, tau, sliceDu, threshold, steps, bounds)`. -/
noncomputable def detectConvergenceAtTime (streams : List StreamData)
    (tau sliceDu threshold : ℝ) (steps : ℕ) (bounds : Bounds ℝ) : List (Convergence ℝ) :=
  detectFromAll sliceDu threshold (allPoints streams tau steps bounds)

/-- Default sample used by positional lookups. -/
noncomputable def dfltPoint : StreamPoint ℝ := ⟨0, 0, 0, 0, 0⟩

lemma length_filter_mono {β : Type} (l : List β) (p q : β → Bool)
    (h : ∀ x ∈ l, p x = true → q x = true) :
    (l.filter p).length ≤ (l.filter q).length := by
  induction l with
  | nil => simp
  | cons x xs ih =>
    have hx := h x (List.mem_cons_self x xs)
    have ihx : (xs.filter p).length ≤ (xs.filter q).length :=
      ih fun y hy => h y (List.mem_cons_of_mem x hy)
    by_cases hp : p x = true
    · rw [List.filter_cons_of_pos hp, List.filter_cons_of_pos (hx hp)]
      simpa using ihx
    · rw [List.filter_cons_of_neg (by simpa using hp)]
      by_cases hq : q x = true
      · rw [List.filter_cons_of_pos hq]
        exact le_trans ihx (Nat.le_succ _)
      · rw [List.filter_cons_of_neg (by simpa using hq)]
        exact ihx

lemma rand_nonneg (s : ℤ) : 0 ≤ rand s := by
  unfold rand; exact Int.fract_nonneg _

lemma rand_lt_one (s : ℤ) : rand s < 1 := by
  unfold rand; exact Int.fract_lt_one _

/-- C6: for every params, bounds, time and integer `segmentCount ≥ 1`,
`sampleCurve` (source `buildStreamPointsAtTime`) returns exactly
`segmentCount + 1` points, the `i`-th of which is `samplePoint` evaluated at
`u = i / segmentCount`, so the `u` values are evenly spaced over `[0, 1]`
inclusive of both endpoints. -/
theorem buildStreamPoints_length_u (params : StreamParams ℝ) (bounds : Bounds ℝ)
    (steps : ℕ) (tau : ℝ) (hs : 1 ≤ steps) :
    (buildStreamPointsAtTime params bounds steps tau).length = steps + 1 ∧
    ∀ i : ℕ, i ≤ steps →
      (buildStreamPointsAtTime params bounds steps tau).getD i dfltPoint =
        pointOnStream ((i : ℝ) / (steps : ℝ)) tau params bounds := by
  constructor
  · unfold buildStreamPointsAtTime
    rw [List.length_map, List.length_range]
  · intro i hi
    have hlt : i < steps + 1 := Nat.lt_succ_of_le hi
    unfold buildStreamPointsAtTime
    rw [List.getD_eq_getElem?_getD, List.getElem?_map, List.getElem?_range hlt]
    rfl

theorem buildStreamPoints_length_u_witness :
    (1 ≤ 2) ∧
    ((buildStreamPointsAtTime ⟨1, 1, 1, 1, 1, 1, 1, 1, 1, 1⟩ ⟨520, 520⟩ 2 0).length = 2 + 1 ∧
    ∀ i : ℕ, i ≤ 2 →
      (buildStreamPointsAtTime ⟨1, 1, 1, 1, 1, 1, 1, 1, 1, 1⟩ ⟨520, 520⟩ 2 0).getD i dfltPoint =
        pointOnStream ((i : ℝ) / (2 : ℕ)) 0 ⟨1, 1, 1, 1, 1, 1, 1, 1, 1, 1⟩ ⟨520, 520⟩) :=
  ⟨by decide, buildStreamPoints_length_u ⟨1, 1, 1, 1, 1, 1, 1, 1, 1, 1⟩ ⟨520, 520⟩ 2 0 (by decide)⟩

/-- C7: for every `u`, `time`, `params` and `bounds`, the intensity returned by
`samplePoint` (source `pointOnStream`) lies in `[0, 1]`, and the position
coordinates equal `streamPos`, a function computed from `(u, time, params,
bounds)` alone — the intensity value does not influence any coordinate. -/
theorem pointOnStream_intensity_range_pos_independent (u tau : ℝ)
    (params : StreamParams ℝ) (bounds : Bounds ℝ) :
    (0 ≤ (pointOnStream u tau params bounds).intensity ∧
      (pointOnStream u tau params bounds).intensity ≤ 1) ∧
    ((pointOnStream u tau params bounds).x, (pointOnStream u tau params bounds).y,
      (pointOnStream u tau params bounds).z) = streamPos u tau params bounds := by
  refine ⟨⟨?_, ?_⟩, rfl⟩
  · have h := Real.neg_one_le_sin ((u * (params.fy + params.fz) + tau * 0.2) * π * 2 +
      params.phaseY * 0.5 + params.phaseZ * 0.5)
    simp only [pointOnStream]
    nlinarith
  · have h := Real.sin_le_one ((u * (params.fy + params.fz) + tau * 0.2) * π * 2 +
      params.phaseY * 0.5 + params.phaseZ * 0.5)
    simp only [pointOnStream]
    nlinarith

/-- C8: the xorshift helper `rand` returns a value in `[0, 1)` for every
integer input, and consequently the generated parameters lie in their
documented ranges: `fx ∈ [1.0, 4.5)`, both amplitude scales in
`[0.25, 0.70)`, and the color seed an integer in `[0, 360)`. -/
theorem rand_range_param_ranges :
    (∀ s : ℤ, 0 ≤ rand s ∧ rand s < 1) ∧
    ∀ (id : String) (seedBase : ℝ),
      (1 ≤ (makeStreamParams id seedBase).fx ∧ (makeStreamParams id seedBase).fx < 4.5) ∧
      (0.25 ≤ (makeStreamParams id seedBase).ampY ∧ (makeStreamParams id seedBase).ampY < 0.70) ∧
      (0.25 ≤ (makeStreamParams id seedBase).ampZ ∧ (makeStreamParams id seedBase).ampZ < 0.70) ∧
      (0 ≤ (makeStreamParams id seedBase).colorSeed ∧
        (makeStreamParams id seedBase).colorSeed < 360) := by
  have hb : ∀ s : ℤ, (0 : ℝ) ≤ (rand s : ℚ) ∧ ((rand s : ℚ) : ℝ) < 1 := by
    intro s
    constructor
    · exact_mod_cast rand_nonneg s
    · exact_mod_cast rand_lt_one s
  refine ⟨fun s => ⟨rand_nonneg s, rand_lt_one s⟩, fun id seedBase => ?_⟩
  simp only [makeStreamParams]
  refine ⟨⟨?_, ?_⟩, ⟨?_, ?_⟩, ⟨?_, ?_⟩, ?_, ?_⟩
  · have := hb (toInt32 ⌊(seedBase + (id.length : ℝ) * 13) * 1000003⌋); nlinarith [this.1, this.2]
  · have := hb (toInt32 ⌊(seedBase + (id.length : ℝ) * 13) * 1000003⌋); nlinarith [this.1, this.2]
  · have := hb (int32Xor (toInt32 ⌊(seedBase + (id.length : ℝ) * 37) * 9999989⌋)
      (toInt32 ⌊(seedBase + (id.length : ℝ) * 91) * 7000001⌋)); nlinarith [this.1, this.2]
  · have := hb (int32Xor (toInt32 ⌊(seedBase + (id.length : ℝ) * 37) * 9999989⌋)
      (toInt32 ⌊(seedBase + (id.length : ℝ) * 91) * 7000001⌋)); nlinarith [this.1, this.2]
  · have := hb (int32Xor (toInt32 ⌊(seedBase + (id.length : ℝ) * 13) * 1000003⌋)
      (toInt32 ⌊(seedBase + (id.length : ℝ) * 59) * 5000161⌋)); nlinarith [this.1, this.2]
  · have := hb (int32Xor (toInt32 ⌊(seedBase + (id.length : ℝ) * 13) * 1000003⌋)
      (toInt32 ⌊(seedBase + (id.length : ℝ) * 59) * 5000161⌋)); nlinarith [this.1, this.2]
  · refine Int.floor_nonneg.mpr ?_
    have h0 := rand_nonneg (int32Xor (int32Xor (int32Xor
      (toInt32 ⌊(seedBase + (id.length : ℝ) * 13) * 1000003⌋)
      (toInt32 ⌊(seedBase + (id.length : ℝ) * 37) * 9999989⌋))
      (toInt32 ⌊(seedBase + (id.length : ℝ) * 91) * 7000001⌋))
      (toInt32 ⌊(seedBase + (id.length : ℝ) * 59) * 5000161⌋))
    nlinarith
  · refine Int.floor_lt.mpr ?_
    have h1 := rand_lt_one (int32Xor (int32Xor (int32Xor
      (toInt32 ⌊(seedBase + (id.length : ℝ) * 13) * 1000003⌋)
      (toInt32 ⌊(seedBase + (id.length : ℝ) * 37) * 9999989⌋))
      (toInt32 ⌊(seedBase + (id.length : ℝ) * 91) * 7000001⌋))
      (toInt32 ⌊(seedBase + (id.length : ℝ) * 59) * 5000161⌋))
    have h0 := rand_nonneg (int32Xor (int32Xor (int32Xor
      (toInt32 ⌊(seedBase + (id.length : ℝ) * 13) * 1000003⌋)
      (toInt32 ⌊(seedBase + (id.length : ℝ) * 37) * 9999989⌋))
      (toInt32 ⌊(seedBase + (id.length : ℝ) * 91) * 7000001⌋))
      (toInt32 ⌊(seedBase + (id.length : ℝ) * 59) * 5000161⌋))
    push_cast
    nlinarith

/-- C9: with all other parameters fixed, raising the proximity threshold from
`t1` to `t2` (with `0 ≤ t1 ≤ t2`) never decreases the number of raw
pre-deduplication candidate matches of `detect`. -/
theorem candidates_threshold_mono (streams : List StreamData) (tau sliceDu : ℝ)
    (steps : ℕ) (bounds : Bounds ℝ) (t1 t2 : ℝ) (h0 : 0 ≤ t1) (h12 : t1 ≤ t2) :
    (rawCandidatesAtTime streams tau sliceDu t1 steps bounds).length ≤
      (rawCandidatesAtTime streams tau sliceDu t2 steps bounds).length := by
  unfold rawCandidatesAtTime candidates
  rw [List.length_map, List.length_map]
  refine length_filter_mono _ _ _ fun p _ hp => ?_
  rw [decide_eq_true_eq] at hp ⊢
  obtain ⟨hu, hid, hd⟩ := hp
  exact ⟨hu, hid, le_trans hd (mul_self_le_mul_self h0 h12)⟩

theorem candidates_threshold_mono_witness :
    (0 : ℝ) ≤ 1 ∧ (1 : ℝ) ≤ 2 ∧
    (rawCandidatesAtTime [⟨"A", ⟨1, 1, 1, 1, 1, 1, 1, 1, 1, 1⟩⟩] 0 1 1 1 ⟨520, 520⟩).length ≤
      (rawCandidatesAtTime [⟨"A", ⟨1, 1, 1, 1, 1, 1, 1, 1, 1, 1⟩⟩] 0 1 2 1 ⟨520, 520⟩).length :=
  ⟨by norm_num, by norm_num,
    candidates_threshold_mono [⟨"A", ⟨1, 1, 1, 1, 1, 1, 1, 1, 1, 1⟩⟩] 0 1 1 ⟨520, 520⟩ 1 2
      (by norm_num) (by norm_num)⟩

/-- C10: for `u ∈ [0, 1]`, any time, non-negative bounds and parameters
produced by the generator, the sampled position lies in the box
`|x| ≤ w/2 + 10`, `|y| ≤ 0.70*h + 10`, `|z| ≤ 0.70*h + 9` (the generator
guarantees `|twist| ≤ 0.4`, amplitude scales below `0.70`, `|swirl| ≤ 0.3`). -/
theorem pointOnStream_bounded_box (id : String) (seedBase u tau w h : ℝ)
    (hu0 : 0 ≤ u) (hu1 : u ≤ 1) (hw : 0 ≤ w) (hh : 0 ≤ h) :
    |(pointOnStream u tau (makeStreamParams id seedBase) ⟨w, h⟩).x| ≤ w / 2 + 10 ∧
    |(pointOnStream u tau (makeStreamParams id seedBase) ⟨w, h⟩).y| ≤ 0.70 * h + 10 ∧
    |(pointOnStream u tau (makeStreamParams id seedBase) ⟨w, h⟩).z| ≤ 0.70 * h + 9 := by
  set P := makeStreamParams id seedBase with hP
  have hrange := rand_range_param_ranges
  have hampY : 0.25 ≤ P.ampY ∧ P.ampY < 0.70 := (hrange.2 id seedBase).2.1
  have hampZ : 0.25 ≤ P.ampZ ∧ P.ampZ < 0.70 := (hrange.2 id seedBase).2.2.1
  have htw : |P.twist| ≤ 0.4 := by
    rw [hP]
    simp only [makeStreamParams]
    rw [abs_le]
    constructor
    · have := rand_nonneg (int32Xor (toInt32 ⌊(seedBase + (id.length : ℝ) * 13) * 1000003⌋)
        (toInt32 ⌊(seedBase + (id.length : ℝ) * 37) * 9999989⌋))
      have : (0 : ℝ) ≤ (rand (int32Xor (toInt32 ⌊(seedBase + (id.length : ℝ) * 13) * 1000003⌋)
        (toInt32 ⌊(seedBase + (id.length : ℝ) * 37) * 9999989⌋)) : ℚ) := by exact_mod_cast this
      nlinarith
    · have := rand_lt_one (int32Xor (toInt32 ⌊(seedBase + (id.length : ℝ) * 13) * 1000003⌋)
        (toInt32 ⌊(seedBase + (id.length : ℝ) * 37) * 9999989⌋))
      have : ((rand (int32Xor (toInt32 ⌊(seedBase + (id.length : ℝ) * 13) * 1000003⌋)
        (toInt32 ⌊(seedBase + (id.length : ℝ) * 37) * 9999989⌋)) : ℚ) : ℝ) < 1 := by
        exact_mod_cast this
      nlinarith
  have hsw : |P.swirl| ≤ 0.3 := by
    rw [hP]
    simp only [makeStreamParams]
    rw [abs_le]
    constructor
    · have := rand_nonneg (int32Xor (toInt32 ⌊(seedBase + (id.length : ℝ) * 37) * 9999989⌋)
        (toInt32 ⌊(seedBase + (id.length : ℝ) * 59) * 5000161⌋))
      have : (0 : ℝ) ≤ (rand (int32Xor (toInt32 ⌊(seedBase + (id.length : ℝ) * 37) * 9999989⌋)
        (toInt32 ⌊(seedBase + (id.length : ℝ) * 59) * 5000161⌋)) : ℚ) := by exact_mod_cast this
      nlinarith
    · have := rand_lt_one (int32Xor (toInt32 ⌊(seedBase + (id.length : ℝ) * 37) * 9999989⌋)
        (toInt32 ⌊(seedBase + (id.length : ℝ) * 59) * 5000161⌋))
      have : ((rand (int32Xor (toInt32 ⌊(seedBase + (id.length : ℝ) * 37) * 9999989⌋)
        (toInt32 ⌊(seedBase + (id.length : ℝ) * 59) * 5000161⌋)) : ℚ) : ℝ) < 1 := by
        exact_mod_cast this
      nlinarith
  have hsin1 : ∀ t : ℝ, |Real.sin t| ≤ 1 := fun t => Real.abs_sin_le_one t
  have hcos1 : ∀ t : ℝ, |Real.cos t| ≤ 1 := fun t => Real.abs_cos_le_one t
  refine ⟨?_, ?_, ?_⟩
  · simp only [pointOnStream]
    have h1 : |w * (u - 0.5)| ≤ w / 2 := by
      rw [abs_mul, abs_of_nonneg hw]
      have : |u - 0.5| ≤ 0.5 := by rw [abs_le]; constructor <;> linarith
      nlinarith
    have h2 : |Real.sin ((u * P.fx + tau * 0.15) * π * 2) * P.twist * 25| ≤ 10 := by
      rw [abs_mul, abs_mul]
      have hs := hsin1 ((u * P.fx + tau * 0.15) * π * 2)
      have habs : (0 : ℝ) ≤ |Real.sin ((u * P.fx + tau * 0.15) * π * 2)| := abs_nonneg _
      have habs2 : (0 : ℝ) ≤ |P.twist| := abs_nonneg _
      rw [abs_of_nonneg (by norm_num : (0:ℝ) ≤ 25)]
      nlinarith
    calc |w * (u - 0.5) + Real.sin ((u * P.fx + tau * 0.15) * π * 2) * P.twist * 25|
        ≤ |w * (u - 0.5)| + |Real.sin ((u * P.fx + tau * 0.15) * π * 2) * P.twist * 25| :=
          abs_add _ _
      _ ≤ w / 2 + 10 := by linarith
  · simp only [pointOnStream]
    have h1 : |h * P.ampY * Real.sin ((u * P.fy + tau * 0.22) * π * 2 + P.phaseY)| ≤
        0.70 * h := by
      rw [abs_mul, abs_mul, abs_of_nonneg hh]
      have hs := hsin1 ((u * P.fy + tau * 0.22) * π * 2 + P.phaseY)
      have habs : (0 : ℝ) ≤ |Real.sin ((u * P.fy + tau * 0.22) * π * 2 + P.phaseY)| :=
        abs_nonneg _
      have hay : |P.ampY| ≤ 0.70 := by
        rw [abs_le]; constructor <;> nlinarith [hampY.1, hampY.2]
      have step1 : h * |P.ampY| * |Real.sin ((u * P.fy + tau * 0.22) * π * 2 + P.phaseY)| ≤
          h * |P.ampY| * 1 :=
        mul_le_mul_of_nonneg_left hs (mul_nonneg hh (abs_nonneg _))
      have step2 : h * |P.ampY| ≤ h * 0.70 := mul_le_mul_of_nonneg_left hay hh
      nlinarith
    have h2 : |Real.cos ((u * 1.2 + tau * 0.07) * π * 2) * 10| ≤ 10 := by
      rw [abs_mul, abs_of_nonneg (by norm_num : (0:ℝ) ≤ 10)]
      have := hcos1 ((u * 1.2 + tau * 0.07) * π * 2)
      nlinarith
    calc |h * P.ampY * Real.sin ((u * P.fy + tau * 0.22) * π * 2 + P.phaseY) +
          Real.cos ((u * 1.2 + tau * 0.07) * π * 2) * 10|
        ≤ |h * P.ampY * Real.sin ((u * P.fy + tau * 0.22) * π * 2 + P.phaseY)| +
          |Real.cos ((u * 1.2 + tau * 0.07) * π * 2) * 10| := abs_add _ _
      _ ≤ 0.70 * h + 10 := by linarith
  · simp only [pointOnStream]
    have h1 : |h * P.ampZ * Real.cos ((u * P.fz + tau * 0.18) * π * 2 + P.phaseZ)| ≤
        0.70 * h := by
      rw [abs_mul, abs_mul, abs_of_nonneg hh]
      have hs := hcos1 ((u * P.fz + tau * 0.18) * π * 2 + P.phaseZ)
      have habs : (0 : ℝ) ≤ |Real.cos ((u * P.fz + tau * 0.18) * π * 2 + P.phaseZ)| :=
        abs_nonneg _
      have haz : |P.ampZ| ≤ 0.70 := by
        rw [abs_le]; constructor <;> nlinarith [hampZ.1, hampZ.2]
      have step1 : h * |P.ampZ| * |Real.cos ((u * P.fz + tau * 0.18) * π * 2 + P.phaseZ)| ≤
          h * |P.ampZ| * 1 :=
        mul_le_mul_of_nonneg_left hs (mul_nonneg hh (abs_nonneg _))
      have step2 : h * |P.ampZ| ≤ h * 0.70 := mul_le_mul_of_nonneg_left haz hh
      nlinarith
    have h2 : |Real.sin ((u * 0.9 + tau * 0.11) * π * 2) * P.swirl * 30| ≤ 9 := by
      rw [abs_mul, abs_mul, abs_of_nonneg (by norm_num : (0:ℝ) ≤ 30)]
      have hs := hsin1 ((u * 0.9 + tau * 0.11) * π * 2)
      have habs : (0 : ℝ) ≤ |Real.sin ((u * 0.9 + tau * 0.11) * π * 2)| := abs_nonneg _
      nlinarith [abs_nonneg P.swirl]
    calc |h * P.ampZ * Real.cos ((u * P.fz + tau * 0.18) * π * 2 + P.phaseZ) +
          Real.sin ((u * 0.9 + tau * 0.11) * π * 2) * P.swirl * 30|
        ≤ |h * P.ampZ * Real.cos ((u * P.fz + tau * 0.18) * π * 2 + P.phaseZ)| +
          |Real.sin ((u * 0.9 + tau * 0.11) * π * 2) * P.swirl * 30| := abs_add _ _
      _ ≤ 0.70 * h + 9 := by linarith

theorem pointOnStream_bounded_box_witness :
    (0 : ℝ) ≤ 1 / 2 ∧ (1 / 2 : ℝ) ≤ 1 ∧ (0 : ℝ) ≤ 520 ∧ (0 : ℝ) ≤ 520 ∧
    (|(pointOnStream (1 / 2) 0 (makeStreamParams "S-1" 0) ⟨520, 520⟩).x| ≤ 520 / 2 + 10 ∧
     |(pointOnStream (1 / 2) 0 (makeStreamParams "S-1" 0) ⟨520, 520⟩).y| ≤ 0.70 * 520 + 10 ∧
     |(pointOnStream (1 / 2) 0 (makeStreamParams "S-1" 0) ⟨520, 520⟩).z| ≤ 0.70 * 520 + 9) :=
  ⟨by norm_num, by norm_num, by norm_num, by norm_num,
    pointOnStream_bounded_box "S-1" 0 (1 / 2) 0 520 520
      (by norm_num) (by norm_num) (by norm_num) (by norm_num)⟩

lemma mem_insertDesc {α : Type} [LinearOrderedField α] (c x : Convergence α)
    (l : List (Convergence α)) : x ∈ insertDesc c l ↔ x = c ∨ x ∈ l := by
  induction l with
  | nil => simp [insertDesc]
  | cons d rest ih =>
    unfold insertDesc
    by_cases hlt : c.strength < d.strength
    · rw [if_pos hlt]
      simp only [List.mem_cons, ih]
      tauto
    · rw [if_neg hlt]
      simp only [List.mem_cons]

lemma insertDesc_pairwise {α : Type} [LinearOrderedField α] (c : Convergence α)
    (l : List (Convergence α))
    (h : List.Pairwise (fun a b => b.strength ≤ a.strength) l) :
    List.Pairwise (fun a b => b.strength ≤ a.strength) (insertDesc c l) := by
  induction l with
  | nil => simp [insertDesc]
  | cons d rest ih =>
    rw [List.pairwise_cons] at h
    unfold insertDesc
    by_cases hlt : c.strength < d.strength
    · rw [if_pos hlt]
      rw [List.pairwise_cons]
      refine ⟨?_, ih h.2⟩
      intro x hx
      rcases (mem_insertDesc c x rest).mp hx with hxc | hxr
      · rw [hxc]; exact le_of_lt hlt
      · exact h.1 x hxr
    · rw [if_neg hlt]
      rw [List.pairwise_cons]
      refine ⟨?_, List.pairwise_cons.mpr h⟩
      intro x hx
      rcases List.mem_cons.mp hx with hxd | hxr
      · rw [hxd]; exact le_of_not_lt hlt
      · exact le_trans (h.1 x hxr) (le_of_not_lt hlt)

lemma sortDesc_pairwise {α : Type} [LinearOrderedField α] (l : List (Convergence α)) :
    List.Pairwise (fun a b => b.strength ≤ a.strength) (sortDesc l) := by
  induction l with
  | nil => simp [sortDesc]
  | cons c rest ih => exact insertDesc_pairwise c (sortDesc rest) ih

lemma insertDesc_filter_strength {α : Type} [LinearOrderedField α] (c : Convergence α)
    (l : List (Convergence α)) (s : α) :
    (insertDesc c l).filter (fun d => decide (d.strength = s)) =
      if c.strength = s then c :: l.filter (fun d => decide (d.strength = s))
      else l.filter (fun d => decide (d.strength = s)) := by
  induction l with
  | nil =>
    unfold insertDesc
    by_cases hcs : c.strength = s
    · simp [hcs]
    · simp [hcs]
  | cons d rest ih =>
    unfold insertDesc
    by_cases hlt : c.strength < d.strength
    · rw [if_pos hlt, List.filter_cons, ih]
      by_cases hcs : c.strength = s
      · have hds : ¬(d.strength = s) := by
          intro hd; rw [hd, ← hcs] at hlt; exact lt_irrefl _ hlt
        simp [hcs, hds, List.filter_cons]
      · by_cases hds : d.strength = s
        · simp [hcs, hds, List.filter_cons]
        · simp [hcs, hds, List.filter_cons]
    · rw [if_neg hlt, List.filter_cons]
      by_cases hcs : c.strength = s
      · simp [hcs, List.filter_cons]
      · simp [hcs, List.filter_cons]

lemma sortDesc_filter_strength {α : Type} [LinearOrderedField α]
    (l : List (Convergence α)) (s : α) :
    (sortDesc l).filter (fun d => decide (d.strength = s)) =
      l.filter (fun d => decide (d.strength = s)) := by
  induction l with
  | nil => simp [sortDesc]
  | cons c rest ih =>
    unfold sortDesc
    rw [insertDesc_filter_strength, ih, List.filter_cons]
    by_cases hcs : c.strength = s
    · simp [hcs]
    · simp [hcs]

/-- C2: the sequence returned by `detect` has length at most 200 and is sorted
by strength non-increasing; the sort is stable — for every strength value the
subsequence of events carrying it is exactly the corresponding subsequence of
the deduplicated list, so ties keep the relative order of that list. -/
theorem detect_sorted_bounded_stable (streams : List StreamData)
    (tau sliceDu threshold : ℝ) (steps : ℕ) (bounds : Bounds ℝ) :
    (detectConvergenceAtTime streams tau sliceDu threshold steps bounds).length ≤ 200 ∧
    List.Pairwise (fun a b => b.strength ≤ a.strength)
      (detectConvergenceAtTime streams tau sliceDu threshold steps bounds) ∧
    ∀ s : ℝ,
      (sortDesc (dedupGo (threshold * 0.75) []
          (rawCandidatesAtTime streams tau sliceDu threshold steps bounds))).filter
        (fun c => decide (c.strength = s)) =
      (dedupGo (threshold * 0.75) []
          (rawCandidatesAtTime streams tau sliceDu threshold steps bounds)).filter
        (fun c => decide (c.strength = s)) := by
  refine ⟨?_, ?_, fun s => sortDesc_filter_strength _ s⟩
  · unfold detectConvergenceAtTime detectFromAll
    rw [List.length_take]
    exact min_le_left _ _
  · unfold detectConvergenceAtTime detectFromAll
    exact (sortDesc_pairwise _).sublist (List.take_sublist _ _)

/-- Default tagged sample used by positional lookups on the specification side. -/
def dfltSample {α : Type} [LinearOrderedField α] : StreamPointWithId α := ⟨0, 0, 0, 0, 0, ""⟩

/-- All index pairs `(i, j)` with `i < j < n`, each unordered pair of positions
enumerated exactly once, `i` outer ascending, `j` inner ascending. -/
def specPairsIdx (n : ℕ) : List (ℕ × ℕ) :=
  (List.range n).flatMap fun i : ℕ => ((List.range n).drop (i + 1)).map fun j : ℕ => (i, j)

/-- The candidate list as the specification describes it: one
`ConvergenceEvent` for each unordered pair of samples (each pair of positions
in the flattened list enumerated once, as `i < j`) whose owning stream
identifiers differ, whose path coordinates are within `pathTolerance`, and
whose squared Euclidean distance is at most `proximityThreshold ^ 2`; the
event is the componentwise midpoint, the average of the two intensities, the
average path coordinate, and the two owning stream identifiers. -/
def claimCandidates {α : Type} [LinearOrderedField α] (sliceDu threshold : α)
    (all : List (StreamPointWithId α)) : List (Convergence α) :=
  ((specPairsIdx all.length).filter fun p =>
      decide ((all.getD p.1 dfltSample).streamId ≠ (all.getD p.2 dfltSample).streamId ∧
        |(all.getD p.1 dfltSample).u - (all.getD p.2 dfltSample).u| ≤ sliceDu ∧
        ((all.getD p.1 dfltSample).x - (all.getD p.2 dfltSample).x) ^ 2 +
          ((all.getD p.1 dfltSample).y - (all.getD p.2 dfltSample).y) ^ 2 +
          ((all.getD p.1 dfltSample).z - (all.getD p.2 dfltSample).z) ^ 2 ≤
            threshold ^ 2)).map fun p =>
    { x := ((all.getD p.1 dfltSample).x + (all.getD p.2 dfltSample).x) / 2
      y := ((all.getD p.1 dfltSample).y + (all.getD p.2 dfltSample).y) / 2
      z := ((all.getD p.1 dfltSample).z + (all.getD p.2 dfltSample).z) / 2
      strength := ((all.getD p.1 dfltSample).intensity + (all.getD p.2 dfltSample).intensity) / 2
      u := ((all.getD p.1 dfltSample).u + (all.getD p.2 dfltSample).u) / 2
      streams := [(all.getD p.1 dfltSample).streamId, (all.getD p.2 dfltSample).streamId] }

lemma map_getD_range {β γ : Type} (xs : List β) (d : β) (f : β → γ) :
    (List.range xs.length).map (fun i : ℕ => f (xs.getD i d)) = xs.map f := by
  induction xs with
  | nil => simp
  | cons x xs ih =>
    rw [List.length_cons, List.range_succ_eq_map, List.map_cons, List.map_map]
    have : ((fun i : ℕ => f ((x :: xs).getD i d)) ∘ Nat.succ) =
        fun i : ℕ => f (xs.getD i d) := by
      funext i; rfl
    rw [this, ih]
    rfl

lemma pairsUpper_getD {β : Type} (l : List β) (d : β) :
    pairsUpper l = (specPairsIdx l.length).map fun p => (l.getD p.1 d, l.getD p.2 d) := by
  induction l with
  | nil => simp [pairsUpper, specPairsIdx]
  | cons x xs ih =>
    unfold pairsUpper specPairsIdx
    rw [List.length_cons, List.range_succ_eq_map, List.flatMap_cons, List.flatMap_map]
    rw [List.map_append]
    congr 1
    · rw [List.drop_succ_cons, List.drop_zero, List.map_map, List.map_map]
      have : (((fun p : ℕ × ℕ => ((x :: xs).getD p.1 d, (x :: xs).getD p.2 d)) ∘
          fun j : ℕ => (0, j)) ∘ Nat.succ) = fun j : ℕ => (x, xs.getD j d) := by
        funext j; rfl
      rw [this]
      exact (map_getD_range xs d fun y => (x, y)).symm
    · rw [ih, specPairsIdx, List.map_flatMap, List.map_flatMap]
      congr 1
      funext i
      rw [List.drop_succ_cons, ← List.map_drop, List.map_map, List.map_map, List.map_map]
      congr 1

lemma candidates_eq_claimCandidates {α : Type} [LinearOrderedField α]
    (sliceDu threshold : α) (all : List (StreamPointWithId α)) :
    candidates sliceDu threshold all = claimCandidates sliceDu threshold all := by
  unfold candidates claimCandidates
  rw [pairsUpper_getD all dfltSample, List.filter_map, List.map_map]
  have hfilter : ∀ p : ℕ × ℕ,
      ((fun q : StreamPointWithId α × StreamPointWithId α =>
          decide (matchPair sliceDu threshold q.1 q.2)) ∘
        fun q : ℕ × ℕ => (all.getD q.1 dfltSample, all.getD q.2 dfltSample)) p =
      decide ((all.getD p.1 dfltSample).streamId ≠ (all.getD p.2 dfltSample).streamId ∧
        |(all.getD p.1 dfltSample).u - (all.getD p.2 dfltSample).u| ≤ sliceDu ∧
        ((all.getD p.1 dfltSample).x - (all.getD p.2 dfltSample).x) ^ 2 +
          ((all.getD p.1 dfltSample).y - (all.getD p.2 dfltSample).y) ^ 2 +
          ((all.getD p.1 dfltSample).z - (all.getD p.2 dfltSample).z) ^ 2 ≤
            threshold ^ 2) := by
    intro p
    rw [Function.comp_apply, decide_eq_decide]
    unfold matchPair
    constructor
    · rintro ⟨h1, h2, h3⟩
      refine ⟨h2, h1, ?_⟩
      nlinarith [h3]
    · rintro ⟨h1, h2, h3⟩
      refine ⟨h2, h1, ?_⟩
      nlinarith [h3]
  rw [List.filter_congr fun p _ => hfilter p]
  refine List.map_eq_map_iff.mpr fun p _ => ?_
  simp only [Function.comp_apply, mkEvent, Convergence.mk.injEq]
  refine ⟨by ring, by ring, by ring, by ring, by ring, trivial⟩

/-- C1: for every call of `detect`, the pre-deduplication candidate list is
exactly the list described by the specification: one `ConvergenceEvent` per
unordered pair of samples with distinct owning stream identifiers (under the
data model, stream identifiers are unique, so distinct identifiers mean
different streams — in particular no candidate pairs two samples of the same
stream), path coordinates within `pathTolerance` and squared distance within
`proximityThreshold ^ 2`; each event carries the componentwise midpoint, the
average intensity as strength, the average path coordinate, and the two
owning identifiers; no other pair produces a candidate. -/
theorem rawCandidates_spec (streams : List StreamData) (tau sliceDu threshold : ℝ)
    (steps : ℕ) (bounds : Bounds ℝ) :
    rawCandidatesAtTime streams tau sliceDu threshold steps bounds =
      claimCandidates sliceDu threshold (allPoints streams tau steps bounds) :=
  candidates_eq_claimCandidates sliceDu threshold (allPoints streams tau steps bounds)

/-- Round half away from zero (the rounding mode the specification names for
the voxel keys). -/
def halfAwayRound {α : Type} [LinearOrderedField α] [FloorRing α] (x : α) : ℤ :=
  if 0 ≤ x then ⌊x + 1 / 2⌋ else -⌊-x + 1 / 2⌋

/-- Voxel cell key of an event position under an arbitrary rounding mode:
each coordinate divided by the cell size and rounded to an integer. -/
def keyWith {α : Type} [LinearOrderedField α] [FloorRing α] (rnd : α → ℤ) (voxel : α)
    (c : Convergence α) : ℤ × ℤ × ℤ :=
  (rnd (c.x / voxel), rnd (c.y / voxel), rnd (c.z / voxel))

/-- The deduplication as the specification describes it: scan the candidates
in order and keep exactly the first candidate encountered for each distinct
cell key (`ks` accumulates the keys of every candidate scanned so far,
kept or dropped). -/
def dedupSpecGo {α : Type} [LinearOrderedField α] [FloorRing α] (rnd : α → ℤ) (voxel : α) :
    List (ℤ × ℤ × ℤ) → List (Convergence α) → List (Convergence α)
  | _, [] => []
  | ks, c :: rest =>
    if keyWith rnd voxel c ∈ ks then dedupSpecGo rnd voxel (keyWith rnd voxel c :: ks) rest
    else c :: dedupSpecGo rnd voxel (keyWith rnd voxel c :: ks) rest

lemma dedupGo_eq_dedupSpecGo {α : Type} [LinearOrderedField α] [FloorRing α] (voxel : α)
    (l : List (Convergence α)) : ∀ seen ks : List (ℤ × ℤ × ℤ),
    (∀ k, k ∈ seen ↔ k ∈ ks) →
    dedupGo voxel seen l = dedupSpecGo jsRound voxel ks l := by
  induction l with
  | nil => intro seen ks _; rfl
  | cons c rest ih =>
    intro seen ks hmem
    unfold dedupGo dedupSpecGo
    have hkey : keyWith jsRound voxel c = voxelKey voxel c := rfl
    by_cases h : voxelKey voxel c ∈ seen
    · rw [if_pos h, if_pos (by rw [hkey]; exact (hmem _).mp h)]
      refine ih seen _ fun k => ⟨fun hk => ?_, fun hk => ?_⟩
      · exact List.mem_cons_of_mem _ ((hmem k).mp hk)
      · rcases List.mem_cons.mp hk with h1 | h2
        · rw [h1, hkey]; exact h
        · exact (hmem k).mpr h2
    · rw [if_neg h, if_neg (by rw [hkey]; exact fun hk => h ((hmem _).mpr hk))]
      refine congrArg (c :: ·) (ih _ _ fun k => ?_)
      rw [hkey]
      simp only [List.mem_cons]
      exact or_congr Iff.rfl (hmem k)

/-- C4 (amended): deduplication in `detect` maps each candidate's position to
a voxel cell key by dividing each coordinate by `proximityThreshold * 0.75`
and rounding with JS `Math.round`, which rounds halves toward positive
infinity (`⌊x + 1/2⌋`), not half away from zero; it keeps exactly the first
candidate encountered, in pairwise-scan order, for each distinct cell key and
discards every later candidate with the same key. -/
theorem detect_dedup_firstPerKey_jsRound (streams : List StreamData)
    (tau sliceDu threshold : ℝ) (steps : ℕ) (bounds : Bounds ℝ) :
    detectConvergenceAtTime streams tau sliceDu threshold steps bounds =
      (sortDesc (dedupSpecGo jsRound (threshold * 0.75) []
        (rawCandidatesAtTime streams tau sliceDu threshold steps bounds))).take 200 := by
  unfold detectConvergenceAtTime detectFromAll rawCandidatesAtTime
  rw [dedupGo_eq_dedupSpecGo (threshold * 0.75) _ [] [] fun k => Iff.rfl]

/-- The detection pipeline with the voxel deduplication the claim words
describe, rounding each scaled coordinate half away from zero. -/
def detectFromAllHalfAway {α : Type} [LinearOrderedField α] [FloorRing α]
    (sliceDu threshold : α) (all : List (StreamPointWithId α)) : List (Convergence α) :=
  (sortDesc (dedupSpecGo halfAwayRound (threshold * 0.75) []
    (candidates sliceDu threshold all))).take 200

/-- C4 counterexample: on a concrete flattened sample list (two streams, two
samples each, `pathTolerance = 0`, `proximityThreshold = 2`, so cell size
`1.5`) the detector's output differs from the output predicted with
round-half-away-from-zero keys: the two candidate midpoints have
`x = -9/4` and `x = -9/10`, and `Math.round` sends both `x / 1.5` values
(`-1.5` and `-0.6`) to cell `-1`, dropping the second candidate, while
half-away-from-zero sends them to cells `-2` and `-1`, keeping both. -/
theorem dedup_not_halfAway :
    detectFromAll (0 : ℚ) 2
      [⟨-(9 / 4), 0, 0, 0, 1, "A"⟩, ⟨-(9 / 10), 0, 0, 1, 0, "A"⟩,
       ⟨-(9 / 4), 0, 0, 0, 1, "B"⟩, ⟨-(9 / 10), 0, 0, 1, 0, "B"⟩] ≠
    detectFromAllHalfAway (0 : ℚ) 2
      [⟨-(9 / 4), 0, 0, 0, 1, "A"⟩, ⟨-(9 / 10), 0, 0, 1, 0, "A"⟩,
       ⟨-(9 / 4), 0, 0, 0, 1, "B"⟩, ⟨-(9 / 10), 0, 0, 1, 0, "B"⟩] := by
  have hA : detectFromAll (0 : ℚ) 2
      [⟨-(9 / 4), 0, 0, 0, 1, "A"⟩, ⟨-(9 / 10), 0, 0, 1, 0, "A"⟩,
       ⟨-(9 / 4), 0, 0, 0, 1, "B"⟩, ⟨-(9 / 10), 0, 0, 1, 0, "B"⟩] =
      [⟨-(9 / 4), 0, 0, 1, 0, ["A", "B"]⟩] := by
    norm_num [detectFromAll, candidates, pairsUpper, matchPair, mkEvent, List.filter_cons,
      dedupGo, voxelKey, jsRound, sortDesc, insertDesc,
      eq_false (by decide : ¬ (("A" : String) = "B"))]
  have hB : detectFromAllHalfAway (0 : ℚ) 2
      [⟨-(9 / 4), 0, 0, 0, 1, "A"⟩, ⟨-(9 / 10), 0, 0, 1, 0, "A"⟩,
       ⟨-(9 / 4), 0, 0, 0, 1, "B"⟩, ⟨-(9 / 10), 0, 0, 1, 0, "B"⟩] =
      [⟨-(9 / 4), 0, 0, 1, 0, ["A", "B"]⟩, ⟨-(9 / 10), 0, 0, 0, 1, ["A", "B"]⟩] := by
    norm_num [detectFromAllHalfAway, candidates, pairsUpper, matchPair, mkEvent,
      List.filter_cons, dedupSpecGo, keyWith, halfAwayRound, sortDesc, insertDesc,
      eq_false (by decide : ¬ (("A" : String) = "B"))]
  rw [hA, hB]
  intro h
  have := congrArg List.length h
  simp at this

/-- C5 counterexample: two streams with identical parameters, `time = 0`,
`proximityThreshold = 40 > 0`, `pathTolerance = 0 ≥ 0`, `segmentCount = 1`.
The sampled path coordinates are `0` and `1` and both pairs coincide
spatially, but the final output is a single event at `u = 0` with strength
`1/2`: the voxel deduplication merges the two coincident-pair candidates
(both cells round to `(0,0,0)`), so no event at sampled `u = 1` is reported,
and the reported strength is `1/2`, not maximal. -/
theorem identical_streams_missing_u :
    detectConvergenceAtTime
      [⟨"A", ⟨0, 0, 0, 0, 0, 0, 0, 0, 0, 0⟩⟩, ⟨"B", ⟨0, 0, 0, 0, 0, 0, 0, 0, 0, 0⟩⟩]
      0 0 40 1 ⟨0, 0⟩ = [⟨0, 10, 0, 1 / 2, 0, ["A", "B"]⟩] := by
  norm_num [detectConvergenceAtTime, detectFromAll, allPoints, buildStreamPointsAtTime,
    pointOnStream, candidates, pairsUpper, matchPair, mkEvent, dedupGo, voxelKey, jsRound,
    sortDesc, insertDesc, List.filter_cons, List.range_succ,
    Real.sin_zero, Real.cos_zero,
    eq_false (by decide : ¬ (("A" : String) = "B"))]
  have h1 := Real.neg_one_le_cos (6 / 5 * π * 2)
  have h2 := Real.cos_le_one (6 / 5 * π * 2)
  rw [if_pos ⟨by nlinarith, by nlinarith⟩]
  simp [sortDesc, insertDesc]

lemma pairsUpper_mem_append {β : Type} (l1 l2 : List β) (a b : β)
    (ha : a ∈ l1) (hb : b ∈ l2) : (a, b) ∈ pairsUpper (l1 ++ l2) := by
  induction l1 with
  | nil => cases ha
  | cons x xs ih =>
    rw [List.cons_append]
    unfold pairsUpper
    rcases List.mem_cons.mp ha with h1 | h2
    · subst h1
      exact List.mem_append_left _ (List.mem_map_of_mem _ (List.mem_append_right xs hb))
    · exact List.mem_append_right _ (ih h2)

/-- C5 (amended): for two streams with identical parameters and distinct
identifiers, any non-negative `pathTolerance` and any `proximityThreshold`,
the pre-deduplication candidate list of `detect` contains, for every sampled
`u = i / segmentCount`, the event of the coincident sample pair: its position
is the common sampled position, its strength the common sampled intensity
(not necessarily maximal), and its `u` the common path coordinate.  The voxel
deduplication and the 200-event cap may drop such events from the final
output, as the counterexample shows. -/
theorem identical_streams_candidates_every_u (id1 id2 : String) (p : StreamParams ℝ)
    (tau sliceDu threshold : ℝ) (steps : ℕ) (bounds : Bounds ℝ)
    (hid : id1 ≠ id2) (hdu : 0 ≤ sliceDu) (i : ℕ) (hi : i ≤ steps) :
    (⟨(pointOnStream ((i : ℝ) / (steps : ℝ)) tau p bounds).x,
      (pointOnStream ((i : ℝ) / (steps : ℝ)) tau p bounds).y,
      (pointOnStream ((i : ℝ) / (steps : ℝ)) tau p bounds).z,
      (pointOnStream ((i : ℝ) / (steps : ℝ)) tau p bounds).intensity,
      (i : ℝ) / (steps : ℝ), [id1, id2]⟩ : Convergence ℝ) ∈
      rawCandidatesAtTime [⟨id1, p⟩, ⟨id2, p⟩] tau sliceDu threshold steps bounds := by
  set pt := pointOnStream ((i : ℝ) / (steps : ℝ)) tau p bounds with hpt
  have hmem : pt ∈ buildStreamPointsAtTime p bounds steps tau := by
    unfold buildStreamPointsAtTime
    exact List.mem_map_of_mem _ (List.mem_range.mpr (Nat.lt_succ_of_le hi))
  set a : StreamPointWithId ℝ :=
    ⟨pt.x, pt.y, pt.z, pt.u, pt.intensity, id1⟩ with hadef
  set b : StreamPointWithId ℝ :=
    ⟨pt.x, pt.y, pt.z, pt.u, pt.intensity, id2⟩ with hbdef
  have hall : allPoints [⟨id1, p⟩, ⟨id2, p⟩] tau steps bounds =
      (buildStreamPointsAtTime p bounds steps tau).map
        (fun q => ⟨q.x, q.y, q.z, q.u, q.intensity, id1⟩) ++
      ((buildStreamPointsAtTime p bounds steps tau).map
        (fun q => ⟨q.x, q.y, q.z, q.u, q.intensity, id2⟩) ++ []) := rfl
  have hpair : (a, b) ∈ pairsUpper (allPoints [⟨id1, p⟩, ⟨id2, p⟩] tau steps bounds) := by
    rw [hall]
    exact pairsUpper_mem_append _ _ a b (List.mem_map_of_mem _ hmem)
      (List.mem_append_left _ (List.mem_map_of_mem _ hmem))
  have hcond : matchPair sliceDu threshold a b := by
    refine ⟨?_, hid, ?_⟩
    · simpa using hdu
    · simp only [hadef, hbdef]
      have : (pt.x - pt.x) * (pt.x - pt.x) + (pt.y - pt.y) * (pt.y - pt.y) +
          (pt.z - pt.z) * (pt.z - pt.z) = 0 := by ring
      rw [this]
      exact mul_self_nonneg threshold
  have hfilter : (a, b) ∈
      (pairsUpper (allPoints [⟨id1, p⟩, ⟨id2, p⟩] tau steps bounds)).filter
        (fun q => decide (matchPair sliceDu threshold q.1 q.2)) :=
    List.mem_filter.mpr ⟨hpair, decide_eq_true hcond⟩
  have hev : mkEvent a b =
      (⟨pt.x, pt.y, pt.z, pt.intensity, (i : ℝ) / (steps : ℝ), [id1, id2]⟩ : Convergence ℝ) := by
    simp only [mkEvent, hadef, hbdef, Convergence.mk.injEq]
    have hu : pt.u = (i : ℝ) / (steps : ℝ) := rfl
    refine ⟨by ring, by ring, by ring, by ring, by rw [hu]; ring, trivial⟩
  rw [← hev]
  exact List.mem_map_of_mem _ hfilter

theorem identical_streams_candidates_every_u_witness :
    ("A" ≠ "B") ∧ ((0 : ℝ) ≤ 0) ∧ (1 ≤ 1) ∧
    (⟨(pointOnStream ((1 : ℕ) / ((1 : ℕ) : ℝ)) 0 ⟨1, 1, 1, 1, 1, 1, 1, 1, 1, 1⟩ ⟨520, 520⟩).x,
      (pointOnStream ((1 : ℕ) / ((1 : ℕ) : ℝ)) 0 ⟨1, 1, 1, 1, 1, 1, 1, 1, 1, 1⟩ ⟨520, 520⟩).y,
      (pointOnStream ((1 : ℕ) / ((1 : ℕ) : ℝ)) 0 ⟨1, 1, 1, 1, 1, 1, 1, 1, 1, 1⟩ ⟨520, 520⟩).z,
      (pointOnStream ((1 : ℕ) / ((1 : ℕ) : ℝ)) 0 ⟨1, 1, 1, 1, 1, 1, 1, 1, 1, 1⟩ ⟨520, 520⟩).intensity,
      ((1 : ℕ) : ℝ) / ((1 : ℕ) : ℝ), ["A", "B"]⟩ : Convergence ℝ) ∈
      rawCandidatesAtTime [⟨"A", ⟨1, 1, 1, 1, 1, 1, 1, 1, 1, 1⟩⟩, ⟨"B", ⟨1, 1, 1, 1, 1, 1, 1, 1, 1, 1⟩⟩]
        0 0 64 1 ⟨520, 520⟩ :=
  ⟨by decide, le_refl 0, le_refl 1,
    identical_streams_candidates_every_u "A" "B" ⟨1, 1, 1, 1, 1, 1, 1, 1, 1, 1⟩ 0 0 64 1
      ⟨520, 520⟩ (by decide) (le_refl 0) 1 (le_refl 1)⟩

/-- C3 counterexample: swapping the second and third stream of a concrete
three-stream input changes the set of reported tuples of the final output.
With streams A, B, C (identifiers and parameters below), `time = 0`,
`pathTolerance = 0`, `proximityThreshold = 8`, `segmentCount = 1`, bounds
`(0, 40)`: the candidates of the pairs A-B, A-C, B-C at `u = 0` all fall into
voxel cell `(0, 2, 2)`, so deduplication keeps only the first of them — which
is the A-B candidate for input order `[A, B, C]` but the A-C candidate for
input order `[A, C, B]`.  The first output reports the stream pair (A, B);
the second reports no event for that pair at all, so the tuple sets differ
beyond tie reordering. -/
theorem detect_swap_changes_output :
    (detectConvergenceAtTime
        [⟨"A", ⟨0, 1, 1, 0, 1 / 4, 0, 0, 0, 0, 0⟩⟩,
         ⟨"B", ⟨0, 1 / 2, 1 / 2, 0, 3 / 10, 0, 0, 0, 0, 0⟩⟩,
         ⟨"C", ⟨0, 1 / 2, 1 / 2, 0, 7 / 20, 0, 0, 0, 0, 0⟩⟩]
        0 0 8 1 ⟨0, 40⟩).map Convergence.streams = [["A", "B"], ["B", "C"]] ∧
    (detectConvergenceAtTime
        [⟨"A", ⟨0, 1, 1, 0, 1 / 4, 0, 0, 0, 0, 0⟩⟩,
         ⟨"C", ⟨0, 1 / 2, 1 / 2, 0, 7 / 20, 0, 0, 0, 0, 0⟩⟩,
         ⟨"B", ⟨0, 1 / 2, 1 / 2, 0, 3 / 10, 0, 0, 0, 0, 0⟩⟩]
        0 0 8 1 ⟨0, 40⟩).map Convergence.streams = [["A", "C"], ["C", "B"]] := by
  have hc1 : Real.cos (π * 2) = 1 := by rw [mul_comm]; exact Real.cos_two_pi
  have hc2 : Real.cos (1 / 2 * π * 2) = -1 := by
    rw [show (1 / 2 * π * 2 : ℝ) = π by ring]; exact Real.cos_pi
  have hs1 : Real.sin (2 * π * 2) = 0 := by
    rw [show (2 * π * 2 : ℝ) = ((4 : ℕ) : ℝ) * π by push_cast; ring]
    exact Real.sin_nat_mul_pi 4
  have hs2 : Real.sin (π * 2) = 0 := by rw [mul_comm]; exact Real.sin_two_pi
  constructor
  · norm_num [detectConvergenceAtTime, detectFromAll, allPoints, buildStreamPointsAtTime,
      pointOnStream, candidates, pairsUpper, matchPair, mkEvent, dedupGo, voxelKey, jsRound,
      sortDesc, insertDesc, List.filter_cons, List.range_succ,
      Real.sin_zero, Real.cos_zero, hc1, hc2, hs1, hs2,
      eq_false (by decide : ¬ (("A" : String) = "B")),
      eq_false (by decide : ¬ (("A" : String) = "C")),
      eq_false (by decide : ¬ (("B" : String) = "C")),
      eq_false (by decide : ¬ (("C" : String) = "B"))]
  · norm_num [detectConvergenceAtTime, detectFromAll, allPoints, buildStreamPointsAtTime,
      pointOnStream, candidates, pairsUpper, matchPair, mkEvent, dedupGo, voxelKey, jsRound,
      sortDesc, insertDesc, List.filter_cons, List.range_succ,
      Real.sin_zero, Real.cos_zero, hc1, hc2, hs1, hs2,
      eq_false (by decide : ¬ (("A" : String) = "B")),
      eq_false (by decide : ¬ (("A" : String) = "C")),
      eq_false (by decide : ¬ (("B" : String) = "C")),
      eq_false (by decide : ¬ (("C" : String) = "B"))]

/-- The (unordered stream-identifier pair, position, strength) tuple reported
by a convergence event: the identifier list taken as a multiset, so the order
of the two identifiers inside the event is not significant. -/
def eventTuple {α : Type} (c : Convergence α) : Multiset String × (α × α × α) × α :=
  (↑c.streams, (c.x, c.y, c.z), c.strength)

lemma filter_map_eq_filterMap {β γ : Type} (p : β → Bool) (f : β → γ) (l : List β) :
    (l.filter p).map f = l.filterMap fun x => if p x then some (f x) else none := by
  induction l with
  | nil => rfl
  | cons x xs ih =>
    by_cases hp : p x = true
    · simp [List.filter_cons_of_pos hp, List.filterMap_cons, hp, ih]
    · simp [List.filter_cons_of_neg (by simpa using hp), List.filterMap_cons, hp, ih]

lemma pairsUpper_filterMap_perm {β γ : Type} (g : β × β → Option γ)
    (hsymm : ∀ a b : β, g (a, b) = g (b, a)) :
    ∀ {l1 l2 : List β}, l1.Perm l2 →
      ((pairsUpper l1).filterMap g).Perm ((pairsUpper l2).filterMap g) := by
  intro l1 l2 h
  induction h with
  | nil => exact List.Perm.refl _
  | cons x htail ih =>
    unfold pairsUpper
    rw [List.filterMap_append, List.filterMap_append, List.filterMap_map, List.filterMap_map]
    exact List.Perm.append (htail.filterMap _) ih
  | swap x y l =>
    have e1 : pairsUpper (y :: x :: l) =
        (y, x) :: ((l.map fun z => (y, z)) ++ ((l.map fun z => (x, z)) ++ pairsUpper l)) := by
      simp [pairsUpper]
    have e2 : pairsUpper (x :: y :: l) =
        (x, y) :: ((l.map fun z => (x, z)) ++ ((l.map fun z => (y, z)) ++ pairsUpper l)) := by
      simp [pairsUpper]
    rw [e1, e2, List.filterMap_cons, List.filterMap_cons, hsymm y x]
    have hperm :
        ((l.map fun z => (y, z)) ++ ((l.map fun z => (x, z)) ++ pairsUpper l)).filterMap g
          |>.Perm
        (((l.map fun z => (x, z)) ++ ((l.map fun z => (y, z)) ++ pairsUpper l)).filterMap g) := by
      rw [List.filterMap_append, List.filterMap_append, List.filterMap_append,
        List.filterMap_append, ← List.append_assoc, ← List.append_assoc]
      exact List.perm_append_comm.append_right _
    cases hg : g (x, y) with
    | none => exact hperm
    | some v => exact hperm.cons v
  | trans _ _ ih1 ih2 => exact ih1.trans ih2

lemma candidatesTuple_eq_filterMap {α : Type} [LinearOrderedField α] (sliceDu threshold : α)
    (all : List (StreamPointWithId α)) :
    (candidates sliceDu threshold all).map eventTuple =
      (pairsUpper all).filterMap fun q =>
        if decide (matchPair sliceDu threshold q.1 q.2) then
          some (eventTuple (mkEvent q.1 q.2)) else none := by
  unfold candidates
  rw [List.map_map, filter_map_eq_filterMap]
  rfl

lemma matchPair_symm {α : Type} [LinearOrderedField α] (sliceDu threshold : α)
    (a b : StreamPointWithId α) :
    matchPair sliceDu threshold a b ↔ matchPair sliceDu threshold b a := by
  unfold matchPair
  constructor
  · rintro ⟨h1, h2, h3⟩
    exact ⟨by rwa [abs_sub_comm], Ne.symm h2, by nlinarith⟩
  · rintro ⟨h1, h2, h3⟩
    exact ⟨by rwa [abs_sub_comm], Ne.symm h2, by nlinarith⟩

lemma eventTuple_mkEvent_symm {α : Type} [LinearOrderedField α] (a b : StreamPointWithId α) :
    eventTuple (mkEvent a b) = eventTuple (mkEvent b a) := by
  unfold eventTuple mkEvent
  refine Prod.ext ?_ (Prod.ext ?_ ?_)
  · exact Multiset.coe_eq_coe.mpr (List.Perm.swap b.streamId a.streamId [])
  · refine Prod.ext (by ring) (Prod.ext (by ring) (by ring))
  · show (a.intensity + b.intensity) * 0.5 = (b.intensity + a.intensity) * 0.5
    ring

/-- C3 (amended): permuting the input streams (in particular swapping any
two) leaves the multiset of pre-deduplication candidate tuples (unordered
stream-identifier pair, position, strength) unchanged.  For the final output
the claim fails: voxel deduplication keeps the first candidate per cell in
pairwise-scan order, which depends on the stream order, so the set of
reported tuples can change beyond tie reordering (see the counterexample). -/
theorem rawCandidates_perm_invariant (streams1 streams2 : List StreamData)
    (tau sliceDu threshold : ℝ) (steps : ℕ) (bounds : Bounds ℝ)
    (h : streams1.Perm streams2) :
    ((rawCandidatesAtTime streams1 tau sliceDu threshold steps bounds).map eventTuple).Perm
      ((rawCandidatesAtTime streams2 tau sliceDu threshold steps bounds).map eventTuple) := by
  unfold rawCandidatesAtTime
  rw [candidatesTuple_eq_filterMap, candidatesTuple_eq_filterMap]
  refine pairsUpper_filterMap_perm _ ?_ (List.Perm.flatMap_right _ h)
  intro a b
  rw [show decide (matchPair sliceDu threshold a b) =
      decide (matchPair sliceDu threshold b a) from
    decide_eq_decide.mpr (matchPair_symm sliceDu threshold a b)]
  rw [eventTuple_mkEvent_symm]

theorem rawCandidates_perm_invariant_witness :
    (([⟨"A", ⟨1, 1, 1, 1, 1, 1, 1, 1, 1, 1⟩⟩, ⟨"B", ⟨2, 2, 2, 2, 2, 2, 2, 2, 2, 2⟩⟩] :
        List StreamData).Perm
      [⟨"B", ⟨2, 2, 2, 2, 2, 2, 2, 2, 2, 2⟩⟩, ⟨"A", ⟨1, 1, 1, 1, 1, 1, 1, 1, 1, 1⟩⟩]) ∧
    ((rawCandidatesAtTime
        [⟨"A", ⟨1, 1, 1, 1, 1, 1, 1, 1, 1, 1⟩⟩, ⟨"B", ⟨2, 2, 2, 2, 2, 2, 2, 2, 2, 2⟩⟩]
        0 1 64 1 ⟨520, 520⟩).map eventTuple).Perm
      ((rawCandidatesAtTime
        [⟨"B", ⟨2, 2, 2, 2, 2, 2, 2, 2, 2, 2⟩⟩, ⟨"A", ⟨1, 1, 1, 1, 1, 1, 1, 1, 1, 1⟩⟩]
        0 1 64 1 ⟨520, 520⟩).map eventTuple) :=
  ⟨List.Perm.swap (⟨"B", ⟨2, 2, 2, 2, 2, 2, 2, 2, 2, 2⟩⟩ : StreamData)
      (⟨"A", ⟨1, 1, 1, 1, 1, 1, 1, 1, 1, 1⟩⟩ : StreamData) [],
    rawCandidates_perm_invariant
      [⟨"A", ⟨1, 1, 1, 1, 1, 1, 1, 1, 1, 1⟩⟩, ⟨"B", ⟨2, 2, 2, 2, 2, 2, 2, 2, 2, 2⟩⟩]
      [⟨"B", ⟨2, 2, 2, 2, 2, 2, 2, 2, 2, 2⟩⟩, ⟨"A", ⟨1, 1, 1, 1, 1, 1, 1, 1, 1, 1⟩⟩]
      0 1 64 1 ⟨520, 520⟩
      (List.Perm.swap (⟨"B", ⟨2, 2, 2, 2, 2, 2, 2, 2, 2, 2⟩⟩ : StreamData)
        (⟨"A", ⟨1, 1, 1, 1, 1, 1, 1, 1, 1, 1⟩⟩ : StreamData) [])⟩

end Nexus
